import Mathlib

/-!
Verification of the Saleseer core: the natural-language query interpreter
(`llm/handler.py`) and the catalog filter and explainer (`inventory/filters.py`).

The embedding works over exact rationals in place of Python floats, and over
`List Char` in place of Python strings (Lean's byte-position `String` functions
do not reduce in the kernel).  The pandas `DataFrame` held by `ProductFilter`
is embedded as a `List Row`; a multi-column `sort_values` in pandas is a stable
lexicographic sort, embedded here as an insertion sort over the rows paired
with their original positions.
-/

namespace Saleseer

/-! ## Character-level string helpers -/

/-- Lowercase every character; models Python `str.lower()` (ASCII range). -/
def lowerChars (cs : List Char) : List Char := cs.map Char.toLower

/-- Prefix test on character lists. -/
def isPrefixOfChars : List Char → List Char → Bool
  | [], _ => true
  | _ :: _, [] => false
  | a :: as, b :: bs => a == b && isPrefixOfChars as bs

/-- Contiguous-substring test: models Python `pat in hay` and the pandas
`Series.str.contains(pat)` calls in `filter_products` (whose patterns are the
plain lowercase words produced by the interpreter, containing no regex
metacharacters). -/
def isSubstringOf (pat : List Char) : List Char → Bool
  | [] => pat.isEmpty
  | c :: t => isPrefixOfChars pat (c :: t) || isSubstringOf pat t

/-- Case-insensitive containment of `crit` in `field`: models
`field.str.lower().str.contains(crit.lower())` from `filter_products`. -/
def containsCI (field crit : String) : Bool :=
  isSubstringOf (lowerChars crit.data) (lowerChars field.data)

/-- Strip leading and trailing whitespace; models Python `str.strip()`. -/
def stripChars (cs : List Char) : List Char :=
  ((cs.dropWhile Char.isWhitespace).reverse.dropWhile Char.isWhitespace).reverse

/-- `str.strip()` lifted to `String`. -/
def pyStrip (s : String) : String := ⟨stripChars s.data⟩

/-! ## Data model -/

/-- One catalog row, with the exact column set of `products.csv`
(`name, category, color, price, rating, image_url, description`). -/
structure Row where
  name : String
  category : String
  color : String
  price : ℚ
  rating : ℚ
  image_url : String
  description : String
deriving DecidableEq, Repr

/-- The sparse criteria dictionary produced by `parse_query`/`_fallback_parse`
and consumed by `filter_products`.  An absent key of the Python dict is `none`;
`filter_products` reads exactly these five keys via `criteria.get(...)`. -/
structure Criteria where
  category : Option String := none
  color : Option String := none
  price_max : Option ℚ := none
  price_min : Option ℚ := none
  rating_min : Option ℚ := none
deriving DecidableEq, Repr

/-- Python truthiness of `criteria.get(k)` for a string-valued key:
`None` and `""` are falsy. -/
def optStrActive : Option String → Bool
  | none => false
  | some s => !(s.data.isEmpty)

/-- Python truthiness of `criteria.get(k)` for a numeric key:
`None` and `0`/`0.0` are falsy. -/
def optNumActive : Option ℚ → Bool
  | none => false
  | some q => decide (q ≠ 0)

/-! ## `ProductFilter.filter_products` (inventory/filters.py, lines 14-55) -/

/-- One `if criteria.get(k): filtered_df = filtered_df[...str.contains...]`
narrowing step of `filter_products`, for a string-valued key. -/
def stageStr (v : Option String) (get : Row → String) (l : List Row) : List Row :=
  if optStrActive v then l.filter (fun r => containsCI (get r) (v.getD "")) else l

/-- One `if criteria.get(k): filtered_df = filtered_df[price/rating bound]`
narrowing step of `filter_products`, for a numeric key. -/
def stageNum (v : Option ℚ) (pred : ℚ → Row → Bool) (l : List Row) : List Row :=
  if optNumActive v then l.filter (pred (v.getD 0)) else l

/-- The comparison realised by
`filtered_df.sort_values(['rating', 'price'], ascending=[False, True])`:
pandas sorts several columns with a stable lexsort, which orders the rows by
(rating descending, price ascending, original position ascending). -/
def rowKeyLE (a b : Nat × Row) : Prop :=
  b.2.rating < a.2.rating ∨
    (a.2.rating = b.2.rating ∧
      (a.2.price < b.2.price ∨ (a.2.price = b.2.price ∧ a.1 ≤ b.1)))

instance : DecidableRel rowKeyLE := fun a b => by unfold rowKeyLE; infer_instance

instance : IsTotal (Nat × Row) rowKeyLE := by
  constructor
  intro a b
  rcases lt_trichotomy a.2.rating b.2.rating with h | h | h
  · exact Or.inr (Or.inl h)
  · rcases lt_trichotomy a.2.price b.2.price with h2 | h2 | h2
    · exact Or.inl (Or.inr ⟨h, Or.inl h2⟩)
    · rcases Nat.le_total a.1 b.1 with h3 | h3
      · exact Or.inl (Or.inr ⟨h, Or.inr ⟨h2, h3⟩⟩)
      · exact Or.inr (Or.inr ⟨h.symm, Or.inr ⟨h2.symm, h3⟩⟩)
    · exact Or.inr (Or.inr ⟨h.symm, Or.inl h2⟩)
  · exact Or.inl (Or.inl h)

instance : IsTrans (Nat × Row) rowKeyLE := by
  constructor
  intro a b c hab hbc
  rcases hab with h1 | ⟨e1, h2⟩
  · rcases hbc with g1 | ⟨f1, _⟩
    · exact Or.inl (g1.trans h1)
    · exact Or.inl (f1 ▸ h1)
  · rcases hbc with g1 | ⟨f1, g2⟩
    · exact Or.inl (e1 ▸ g1)
    · refine Or.inr ⟨e1.trans f1, ?_⟩
      rcases h2 with p1 | ⟨pe1, i1⟩
      · rcases g2 with q1 | ⟨qe1, _⟩
        · exact Or.inl (p1.trans q1)
        · exact Or.inl (qe1 ▸ p1)
      · rcases g2 with q1 | ⟨qe1, i2⟩
        · exact Or.inl (pe1 ▸ q1)
        · exact Or.inr ⟨pe1.trans qe1, i1.trans i2⟩

/-- The final ranking step of `filter_products`: stable sort of the surviving
rows by (rating descending, price ascending). -/
def sortRows (l : List Row) : List Row :=
  (List.insertionSort rowKeyLE l.enum).map Prod.snd

/-- `ProductFilter.filter_products` with the held DataFrame made explicit:
the five sequential narrowing steps (category, color, price_max, price_min,
rating_min — each skipped when its criteria value is falsy), then the
rating/price sort. -/
def filter_products (df : List Row) (criteria : Criteria) : List Row :=
  sortRows
    (stageNum criteria.rating_min (fun q r => decide (q ≤ r.rating))
      (stageNum criteria.price_min (fun q r => decide (q ≤ r.price))
        (stageNum criteria.price_max (fun q r => decide (r.price ≤ q))
          (stageStr criteria.color Row.color
            (stageStr criteria.category Row.category df)))))

/-- The `ProductFilter` object: its only state is the DataFrame loaded at
construction time. -/
structure ProductFilter where
  df : List Row

/-- The method `ProductFilter.filter_products(self, criteria)` as a state
transformer.  Its Python body works on `self.df.copy()` and contains no
assignment to `self.df`, so the embedded method returns the receiver
unchanged alongside the filtered result. -/
def ProductFilter.run_filter_products (self : ProductFilter) (criteria : Criteria) :
    List Row × ProductFilter :=
  (filter_products self.df criteria, self)

/-! ## `LLMHandler._fallback_parse` (llm/handler.py, lines 86-132) -/

/-- The fixed color keyword list scanned by `_fallback_parse`, in source order. -/
def fallbackColors : List String :=
  ["red", "blue", "green", "black", "white", "pink", "yellow", "purple",
   "orange", "brown", "grey", "gray", "navy"]

/-- The fixed category-to-keywords mapping scanned by `_fallback_parse`, in
insertion (iteration) order. -/
def fallbackCategories : List (String × List String) :=
  [("dress", ["dress", "gown"]),
   ("jeans", ["jeans", "denim"]),
   ("shirt", ["shirt", "blouse", "top"]),
   ("shoes", ["shoes", "sneakers", "boots"]),
   ("jacket", ["jacket", "blazer", "coat"])]

/-- First maximal run of decimal digits in the text: the `re.search(r'\$?(\d+)', query)`
capture (the optional dollar sign only anchors the match; group 1 is the digit run). -/
def firstDigitRun : List Char → Option (List Char)
  | [] => none
  | c :: t => if c.isDigit then some ((c :: t).takeWhile Char.isDigit) else firstDigitRun t

/-- Numeric value of a digit run, as `float(group(1))` produces it. -/
def natOfDigits (ds : List Char) : Nat :=
  ds.foldl (fun n c => 10 * n + (c.toNat - 48)) 0

/-- `LLMHandler._fallback_parse`: keyword color detection (first match in list
order), keyword category detection (first category any of whose synonyms
occurs), and first-number price extraction directed to `price_max` or
`price_min` by the surrounding words.  `rating_min` is never produced. -/
def _fallback_parse (query : String) : Criteria :=
  let query_lower := lowerChars query.data
  let c0 : Criteria := {}
  let c1 : Criteria :=
    match fallbackColors.find? (fun c => isSubstringOf c.data query_lower) with
    | some c => { c0 with color := some c }
    | none => c0
  let c2 : Criteria :=
    match fallbackCategories.find?
        (fun p => p.2.any (fun k => isSubstringOf k.data query_lower)) with
    | some p => { c1 with category := some p.1 }
    | none => c1
  match firstDigitRun query.data with
  | none => c2
  | some ds =>
      let price : ℚ := (natOfDigits ds : ℕ)
      if isSubstringOf "under".data query_lower
          || isSubstringOf "below".data query_lower
          || isSubstringOf "less than".data query_lower then
        { c2 with price_max := some price }
      else if isSubstringOf "over".data query_lower
          || isSubstringOf "above".data query_lower
          || isSubstringOf "more than".data query_lower then
        { c2 with price_min := some price }
      else
        { c2 with price_max := some price }

/-! ## `LLMHandler.parse_query` (llm/handler.py, lines 56-84)

The completion transport is external (an HTTPS call through the `openai`
client); its outcome for one query is embedded as an `Except Unit String`:
`.ok text` is the completion text, `.error ()` is any raised exception
(network, auth, quota, timeout).  `json.loads` is the Python standard
library; it is embedded as an executable recursive-descent parser over the
JSON grammar (sufficient for the object/array/scalar distinction the handler
branches on; unicode escapes and exponent-form numbers are out of scope). -/

/-- The opening brace character (written numerically). -/
def lbrace : Char := Char.ofNat 123

/-- The closing brace character (written numerically). -/
def rbrace : Char := Char.ofNat 125

/-- JSON values as returned by `json.loads`. -/
inductive JValue where
  | jnull
  | jbool (b : Bool)
  | jnum (q : ℚ)
  | jstr (s : String)
  | jarr (elems : List JValue)
  | jobj (fields : List (String × JValue))
deriving Repr

/-- `isinstance(criteria, dict)`. -/
def isObj : JValue → Bool
  | .jobj _ => true
  | _ => false

/-- Skip JSON whitespace. -/
def skipWs (cs : List Char) : List Char := cs.dropWhile Char.isWhitespace

/-- Body of a JSON string literal after the opening quote: returns the decoded
characters and the remainder after the closing quote.  Handles the one-character
escapes; `\u` escapes are unsupported and reported as a parse error. -/
def parseStringBody : List Char → Option (List Char × List Char)
  | [] => none
  | '"' :: rest => some ([], rest)
  | '\\' :: e :: rest =>
      match (match e with
             | '"' => some '"'
             | '\\' => some '\\'
             | '/' => some '/'
             | 'n' => some '\n'
             | 't' => some '\t'
             | 'r' => some '\r'
             | _ => none) with
      | some d => (parseStringBody rest).map (fun p => (d :: p.1, p.2))
      | none => none
  | c :: rest => (parseStringBody rest).map (fun p => (c :: p.1, p.2))

/-- A JSON number: optional minus sign, integer digits, optional fraction. -/
def parseNumber (cs : List Char) : Option (ℚ × List Char) :=
  let signed : Bool × List Char := match cs with
    | '-' :: t => (true, t)
    | _ => (false, cs)
  match signed.2 with
  | [] => none
  | c :: _ =>
      if c.isDigit then
        let intDigits := signed.2.takeWhile Char.isDigit
        let afterInt := signed.2.dropWhile Char.isDigit
        let intVal : ℚ := (natOfDigits intDigits : ℕ)
        match afterInt with
        | '.' :: t =>
            match t with
            | d :: _ =>
                if d.isDigit then
                  let fracDigits := t.takeWhile Char.isDigit
                  let rest := t.dropWhile Char.isDigit
                  let v : ℚ := intVal + (natOfDigits fracDigits : ℕ) / ((10 : ℚ) ^ fracDigits.length)
                  some (if signed.1 then -v else v, rest)
                else none
            | [] => none
        | rest => some (if signed.1 then -intVal else intVal, rest)
      else none

/-- Recursive-descent JSON value parser, fueled for structural recursion.
A partially parsed array (after a comma) is resumed by re-seeding the input
with an opening bracket, and similarly for objects, which keeps the recursion
on a single function. -/
def parseValue : Nat → List Char → Option (JValue × List Char)
  | 0, _ => none
  | fuel + 1, cs =>
      match skipWs cs with
      | [] => none
      | c :: t =>
          if c == '"' then
            (parseStringBody t).map (fun p => (JValue.jstr ⟨p.1⟩, p.2))
          else if c == '[' then
            match skipWs t with
            | ']' :: u => some (JValue.jarr [], u)
            | u =>
                match parseValue fuel u with
                | none => none
                | some (v, rest) =>
                    match skipWs rest with
                    | ']' :: u2 => some (JValue.jarr [v], u2)
                    | ',' :: u2 =>
                        match parseValue fuel ('[' :: u2) with
                        | some (JValue.jarr vs, u3) => some (JValue.jarr (v :: vs), u3)
                        | _ => none
                    | _ => none
          else if c == lbrace then
            match skipWs t with
            | u =>
                if u.headD ' ' == rbrace then some (JValue.jobj [], u.tail)
                else
                  match u with
                  | '"' :: u1 =>
                      match parseStringBody u1 with
                      | none => none
                      | some (k, u2) =>
                          match skipWs u2 with
                          | ':' :: u3 =>
                              match parseValue fuel u3 with
                              | none => none
                              | some (v, u4) =>
                                  match skipWs u4 with
                                  | ',' :: u5 =>
                                      match parseValue fuel (lbrace :: u5) with
                                      | some (JValue.jobj fs, u6) =>
                                          some (JValue.jobj ((⟨k⟩, v) :: fs), u6)
                                      | _ => none
                                  | u5 =>
                                      if u5.headD ' ' == rbrace then
                                        some (JValue.jobj [(⟨k⟩, v)], u5.tail)
                                      else none
                          | _ => none
                  | _ => none
          else if c == 't' then
            if isPrefixOfChars "rue".data t then some (JValue.jbool true, t.drop 3) else none
          else if c == 'f' then
            if isPrefixOfChars "alse".data t then some (JValue.jbool false, t.drop 4) else none
          else if c == 'n' then
            if isPrefixOfChars "ull".data t then some (JValue.jnull, t.drop 3) else none
          else
            (parseNumber (c :: t)).map (fun p => (JValue.jnum p.1, p.2))

/-- `json.loads`: parse the whole text as one JSON value; `none` is a raised
`json.JSONDecodeError`. -/
def json_loads (s : String) : Option JValue :=
  match parseValue (s.data.length + 1) s.data with
  | some (v, rest) => if (skipWs rest).isEmpty then some v else none
  | none => none

/-- `re.search(r'\{.*\}', result_text, re.DOTALL)`: with a greedy dot-matches-
newline body, the match runs from the first opening brace to the last closing
brace, provided that closing brace comes later. -/
def extractBraces (s : String) : Option String :=
  let cs := s.data
  match cs.findIdx? (fun c => c == lbrace) with
  | none => none
  | some i =>
      match cs.reverse.findIdx? (fun c => c == rbrace) with
      | none => none
      | some jr =>
          let j := cs.length - 1 - jr
          if i < j then some ⟨(cs.drop i).take (j - i + 1)⟩ else none

/-- `dict.get(k)` on the decoded JSON object (on duplicate keys `json.loads`
keeps the last occurrence, hence the reversed search). -/
def jGet (fields : List (String × JValue)) (k : String) : Option JValue :=
  (fields.reverse.find? (fun p => p.1 == k)).map Prod.snd

/-- Projection of the decoded JSON dictionary onto the five criteria keys that
every downstream consumer reads.  Unknown keys are inert, and a key bound to a
value of the wrong shape (which no consumer could use) is dropped. -/
def criteriaOfFields (fields : List (String × JValue)) : Criteria :=
  { category := match jGet fields "category" with | some (.jstr s) => some s | _ => none
    color := match jGet fields "color" with | some (.jstr s) => some s | _ => none
    price_max := match jGet fields "price_max" with | some (.jnum q) => some q | _ => none
    price_min := match jGet fields "price_min" with | some (.jnum q) => some q | _ => none
    rating_min := match jGet fields "rating_min" with | some (.jnum q) => some q | _ => none }

/-- `LLMHandler.parse_query` for one completion outcome.  On a completion
exception the whole body falls to `_fallback_parse`.  On completion text:
strip it, try `json.loads`; a decoded non-dict value yields the empty dict; on
a decode error, search for a brace-delimited substring — absent, yield the
empty dict; present, re-parse it, and a second decode error escapes the inner
`except json.JSONDecodeError` and is caught by the outer handler, which falls
back. -/
def parse_query (completion : Except Unit String) (user_query : String) : Criteria :=
  match completion with
  | .error _ => _fallback_parse user_query
  | .ok raw =>
      match json_loads (pyStrip raw) with
      | some v =>
          match v with
          | .jobj fields => criteriaOfFields fields
          | _ => {}
      | none =>
          match extractBraces (pyStrip raw) with
          | some sub =>
              match json_loads sub with
              | some (.jobj fields) => criteriaOfFields fields
              | some _ => {}
              | none => _fallback_parse user_query
          | none => {}

/-- Unfolding of `parse_query` on completion text. -/
theorem parse_query_ok (raw user_query : String) :
    parse_query (Except.ok raw) user_query =
      (match json_loads (pyStrip raw) with
       | some v =>
           (match v with
            | JValue.jobj fields => criteriaOfFields fields
            | _ => ({} : Criteria))
       | none =>
           (match extractBraces (pyStrip raw) with
            | some sub =>
                (match json_loads sub with
                 | some (JValue.jobj fields) => criteriaOfFields fields
                 | some _ => ({} : Criteria)
                 | none => _fallback_parse user_query)
            | none => ({} : Criteria))) := rfl

/-! ## `generate_recommendation_explanation` (inventory/filters.py, lines 71-119) -/

/-- Two-digit zero padding for the cents part of a price. -/
def pad2 (n : Nat) : String := if n < 10 then "0" ++ toString n else toString n

/-- `f"{q:.2f}"`: fixed two-decimal rendering of the embedded rational. -/
def fmt2 (q : ℚ) : String :=
  let c : ℤ := round (q * 100)
  let a := c.natAbs
  (if c < 0 then "-" else "") ++ toString (a / 100) ++ "." ++ pad2 (a % 100)

/-- `str(x)` for a numeric criteria value interpolated into an f-string
(a Python float of integral value prints with a trailing `.0`). -/
def pyNumStr (q : ℚ) : String :=
  if q.den = 1 then toString q.num ++ ".0" else toString q.num ++ "/" ++ toString q.den

/-- `generate_recommendation_explanation(filtered_products, original_criteria)`:
a fixed message on an empty result; otherwise the count sentence, the applied
criteria mentions (category, color, price_max, rating_min — the source skips
price_min), a quality note keyed on the mean rating, and for more than one row
the observed price range, joined by `". "` and closed with a period. -/
def generate_recommendation_explanation (filtered_products : List Row)
    (original_criteria : Criteria) : String :=
  if filtered_products.length = 0 then
    "No products found matching your criteria. Try adjusting your search terms."
  else
    let count := filtered_products.length
    let parts0 : List String :=
      ["Found " ++ toString count ++ " item" ++ (if count ≠ 1 then "s" else "")]
    let m0 : List String := []
    let m1 := if optStrActive original_criteria.category then
        m0 ++ ["in " ++ original_criteria.category.getD ""] else m0
    let m2 := if optStrActive original_criteria.color then
        m1 ++ ["in " ++ original_criteria.color.getD ""] else m1
    let m3 := if optNumActive original_criteria.price_max then
        m2 ++ ["under $" ++ pyNumStr (original_criteria.price_max.getD 0)] else m2
    let m4 := if optNumActive original_criteria.rating_min then
        m3 ++ ["with rating ≥ " ++ pyNumStr (original_criteria.rating_min.getD 0)] else m3
    let parts1 := if m4.isEmpty then parts0 else parts0 ++ [" ".intercalate m4]
    let avg_rating : ℚ := (filtered_products.map Row.rating).sum / (count : ℚ)
    let parts2 :=
      if (4.5 : ℚ) ≤ avg_rating then parts1 ++ ["• All items have excellent ratings"]
      else if (4 : ℚ) ≤ avg_rating then parts1 ++ ["• Items have good to excellent ratings"]
      else parts1
    let parts3 :=
      if 1 < filtered_products.length then
        parts2 ++ ["• Price range: $" ++ fmt2 (((filtered_products.map Row.price).min?).getD 0)
          ++ " - $" ++ fmt2 (((filtered_products.map Row.price).max?).getD 0)]
      else parts2
    ". ".intercalate parts3 ++ "."

/-! ## Criteria combination (for the monotone-narrowing property) -/

/-- Dictionary-merge priority: the second dict's binding wins, absent keys fall
through. -/
def mergeField {α : Type} : Option α → Option α → Option α
  | some v, _ => some v
  | none, b => b

/-- The criteria union of the spec (Python `{**A, **B}`): `B`'s bindings
override, `A` fills the rest. -/
def Criteria.union (a b : Criteria) : Criteria :=
  { category := mergeField b.category a.category
    color := mergeField b.color a.color
    price_max := mergeField b.price_max a.price_max
    price_min := mergeField b.price_min a.price_min
    rating_min := mergeField b.rating_min a.rating_min }

/-- `B` adds constraints to `A`: every key `B` binds is absent from `A`. -/
def Criteria.AddsConstraintsTo (a b : Criteria) : Prop :=
  (a.category.isSome → b.category = none) ∧
  (a.color.isSome → b.color = none) ∧
  (a.price_max.isSome → b.price_max = none) ∧
  (a.price_min.isSome → b.price_min = none) ∧
  (a.rating_min.isSome → b.rating_min = none)

/-- The ranking relation of the final sort, at the level of returned rows:
earlier rows have strictly higher rating, or equal rating and no higher price. -/
def rankedBefore (x y : Row) : Prop :=
  y.rating < x.rating ∨ (x.rating = y.rating ∧ x.price ≤ y.price)

/-! ## Lemmas about the sorting step -/

theorem sortRows_perm (l : List Row) : (sortRows l).Perm l := by
  have h := (List.perm_insertionSort rowKeyLE l.enum).map Prod.snd
  simpa [sortRows, List.enum_map_snd] using h

theorem mem_sortRows {r : Row} {l : List Row} : r ∈ sortRows l ↔ r ∈ l :=
  (sortRows_perm l).mem_iff

theorem sortRows_pairwise (l : List Row) : (sortRows l).Pairwise rankedBefore := by
  have hs : (List.insertionSort rowKeyLE l.enum).Pairwise rowKeyLE :=
    List.sorted_insertionSort rowKeyLE l.enum
  rw [sortRows, List.pairwise_map]
  refine hs.imp ?_
  intro a b hab
  rcases hab with h | ⟨e, h2⟩
  · exact Or.inl h
  · rcases h2 with h2 | ⟨h2, _⟩
    · exact Or.inr ⟨e, le_of_lt h2⟩
    · exact Or.inr ⟨e, le_of_eq h2⟩

theorem enum_pairwise_fst_lt (l : List Row) :
    l.enum.Pairwise (fun a b : Nat × Row => a.1 < b.1) := by
  have h1 : (l.enum.map Prod.fst).Pairwise (· < ·) := by
    rw [List.enum_map_fst]; exact List.pairwise_lt_range _
  exact List.pairwise_map.mp h1

/-- Stability of the embedded sort: filtering the sorted output by any
predicate that the sort order cannot strictly separate recovers the filtered
input in input order. -/
theorem sortRows_filter_key (l : List Row) (P : Row → Bool)
    (hP : ∀ a b : Nat × Row, P a.2 → P b.2 → rowKeyLE a b → a.1 ≤ b.1) :
    (sortRows l).filter P = l.filter P := by
  have hperm :
      (List.filter (fun a => P a.2) (List.insertionSort rowKeyLE l.enum)).Perm
        (List.filter (fun a => P a.2) l.enum) :=
    (List.perm_insertionSort rowKeyLE l.enum).filter _
  have ht : (List.filter (fun a => P a.2) l.enum).Pairwise
      (fun a b : Nat × Row => a.1 < b.1) :=
    (enum_pairwise_fst_lt l).sublist (List.filter_sublist _)
  have hsorted : (List.filter (fun a => P a.2) (List.insertionSort rowKeyLE l.enum)).Pairwise
      rowKeyLE :=
    (List.sorted_insertionSort rowKeyLE l.enum).sublist (List.filter_sublist _)
  have hle : (List.filter (fun a => P a.2) (List.insertionSort rowKeyLE l.enum)).Pairwise
      (fun a b : Nat × Row => a.1 ≤ b.1) := by
    refine hsorted.imp_of_mem ?_
    intro a b ha hb hab
    exact hP a b (List.mem_filter.mp ha).2 (List.mem_filter.mp hb).2 hab
  have hnodupfst :
      ((List.filter (fun a => P a.2) (List.insertionSort rowKeyLE l.enum)).map Prod.fst).Nodup := by
    have h2 : (l.enum.map Prod.fst).Nodup := by
      rw [List.enum_map_fst]; exact List.nodup_range _
    have h1 : ((List.filter (fun a => P a.2) l.enum).map Prod.fst).Nodup :=
      h2.sublist ((List.filter_sublist _).map Prod.fst)
    exact (hperm.map Prod.fst).nodup_iff.mpr h1
  have hneq : (List.filter (fun a => P a.2) (List.insertionSort rowKeyLE l.enum)).Pairwise
      (fun a b : Nat × Row => a.1 ≠ b.1) :=
    List.pairwise_map.mp hnodupfst
  have hlt : (List.filter (fun a => P a.2) (List.insertionSort rowKeyLE l.enum)).Pairwise
      (fun a b : Nat × Row => a.1 < b.1) :=
    (hle.and hneq).imp (fun h => lt_of_le_of_ne h.1 h.2)
  haveI : IsAntisymm (Nat × Row) (fun a b => a.1 < b.1) :=
    ⟨fun a b h h' => absurd h' (lt_asymm h)⟩
  have heq : List.filter (fun a => P a.2) (List.insertionSort rowKeyLE l.enum) =
      List.filter (fun a => P a.2) l.enum :=
    List.eq_of_perm_of_sorted hperm hlt ht
  have h1 : (sortRows l).filter P =
      (List.filter (fun a => P a.2) (List.insertionSort rowKeyLE l.enum)).map Prod.snd := by
    simp only [sortRows, List.filter_map, Function.comp_def]
  have h2 : l.filter P = (List.filter (fun a => P a.2) l.enum).map Prod.snd := by
    conv_lhs => rw [← List.enum_map_snd l]
    simp only [List.filter_map, Function.comp_def]
  rw [h1, h2, heq]

/-! ## Lemmas about the narrowing stages -/

theorem stageStr_none (get : Row → String) (l : List Row) : stageStr none get l = l := by
  simp [stageStr, optStrActive]

theorem stageNum_none (pred : ℚ → Row → Bool) (l : List Row) : stageNum none pred l = l := by
  simp [stageNum, optNumActive]

theorem stageStr_sublist (v : Option String) (get : Row → String) (l : List Row) :
    List.Sublist (stageStr v get l) l := by
  unfold stageStr; split
  · exact List.filter_sublist l
  · exact List.Sublist.refl l

theorem stageNum_sublist (v : Option ℚ) (pred : ℚ → Row → Bool) (l : List Row) :
    List.Sublist (stageNum v pred l) l := by
  unfold stageNum; split
  · exact List.filter_sublist l
  · exact List.Sublist.refl l

theorem mem_of_mem_stageStr {v : Option String} {get : Row → String} {l : List Row} {r : Row}
    (h : r ∈ stageStr v get l) : r ∈ l :=
  (stageStr_sublist v get l).mem h

theorem mem_of_mem_stageNum {v : Option ℚ} {pred : ℚ → Row → Bool} {l : List Row} {r : Row}
    (h : r ∈ stageNum v pred l) : r ∈ l :=
  (stageNum_sublist v pred l).mem h

theorem mem_stageNum_some {p : ℚ} {pred : ℚ → Row → Bool} {l : List Row} {r : Row}
    (hp : p ≠ 0) (h : r ∈ stageNum (some p) pred l) : pred p r = true := by
  unfold stageNum at h
  rw [if_pos (by simp [optNumActive, hp])] at h
  exact (List.mem_filter.mp h).2

theorem stageStr_mem_mono {vA vU : Option String} (get : Row → String)
    (h : vA = none ∨ vU = vA) {l₁ l₂ : List Row} (hsub : ∀ r, r ∈ l₁ → r ∈ l₂) :
    ∀ r, r ∈ stageStr vU get l₁ → r ∈ stageStr vA get l₂ := by
  intro r hr
  rcases h with h | h
  · subst h
    rw [stageStr_none]
    exact hsub r (mem_of_mem_stageStr hr)
  · subst h
    by_cases hact : optStrActive vU = true
    · unfold stageStr at hr ⊢
      rw [if_pos hact] at hr ⊢
      rcases List.mem_filter.mp hr with ⟨hm, hp⟩
      exact List.mem_filter.mpr ⟨hsub r hm, hp⟩
    · unfold stageStr at hr ⊢
      rw [if_neg hact] at hr ⊢
      exact hsub r hr

theorem stageNum_mem_mono {vA vU : Option ℚ} (pred : ℚ → Row → Bool)
    (h : vA = none ∨ vU = vA) {l₁ l₂ : List Row} (hsub : ∀ r, r ∈ l₁ → r ∈ l₂) :
    ∀ r, r ∈ stageNum vU pred l₁ → r ∈ stageNum vA pred l₂ := by
  intro r hr
  rcases h with h | h
  · subst h
    rw [stageNum_none]
    exact hsub r (mem_of_mem_stageNum hr)
  · subst h
    by_cases hact : optNumActive vU = true
    · unfold stageNum at hr ⊢
      rw [if_pos hact] at hr ⊢
      rcases List.mem_filter.mp hr with ⟨hm, hp⟩
      exact List.mem_filter.mpr ⟨hsub r hm, hp⟩
    · unfold stageNum at hr ⊢
      rw [if_neg hact] at hr ⊢
      exact hsub r hr

theorem mergeField_compat {α : Type} (x y : Option α) (h : x.isSome → y = none) :
    x = none ∨ mergeField y x = x := by
  cases x with
  | none => exact Or.inl rfl
  | some v =>
      rw [h (by simp)]
      exact Or.inr rfl

/-! ## Claim theorems -/

/-- C1 (counterexample): the model path can obtain text (here the literal
JSON array `[1]`) that decodes to a non-object, yet `parse_query` returns the
empty criteria dict rather than `_fallback_parse` of the raw query — on the
query `"red"` the fallback extractor would have produced a color. -/
theorem parse_query_nonobject_counterexample :
    ((json_loads (pyStrip "[1]")).map isObj = some false) ∧
    parse_query (Except.ok "[1]") "red" = ({} : Criteria) ∧
    _fallback_parse "red" = { color := some "red" } ∧
    parse_query (Except.ok "[1]") "red" ≠ _fallback_parse "red" :=
  ⟨by decide, by decide, by decide, by decide⟩

/-- C1 (amended): when the completion text decodes to a non-object, or when it
fails to decode and no brace-delimited substring can be located, `parse_query`
returns the empty criteria dict; the fallback extractor on the original raw
query is used when the completion call itself raises. -/
theorem parse_query_malformed_output_amended (t q : String) :
    ((json_loads (pyStrip t)).map isObj = some false →
        parse_query (Except.ok t) q = ({} : Criteria)) ∧
    ((json_loads (pyStrip t)).isNone = true → (extractBraces (pyStrip t)).isNone = true →
        parse_query (Except.ok t) q = ({} : Criteria)) ∧
    parse_query (Except.error ()) q = _fallback_parse q := by
  refine ⟨?_, ?_, rfl⟩
  · intro h
    rw [parse_query_ok]
    cases hj : json_loads (pyStrip t) with
    | none => rw [hj] at h; simp at h
    | some v =>
        rw [hj] at h
        simp only [Option.map_some'] at h
        cases v <;> simp_all [isObj]
  · intro h1 h2
    rw [parse_query_ok]
    cases hj : json_loads (pyStrip t) with
    | some v => rw [hj] at h1; simp at h1
    | none =>
        cases he : extractBraces (pyStrip t) with
        | some sub => rw [he] at h2; simp at h2
        | none => rfl

/-- C1 (witness): the amended behaviour at concrete inputs — array output,
undecodable brace-free output, and a raised completion call. -/
theorem parse_query_malformed_output_amended_witness :
    parse_query (Except.ok "[1]") "red" = ({} : Criteria) ∧
    parse_query (Except.ok "hello") "red" = ({} : Criteria) ∧
    parse_query (Except.error ()) "red" = _fallback_parse "red" :=
  ⟨(parse_query_malformed_output_amended "[1]" "red").1 (by decide),
   (parse_query_malformed_output_amended "hello" "red").2.1 (by decide) (by decide),
   (parse_query_malformed_output_amended "hello" "red").2.2⟩

/-- C2 (counterexample): a criteria containing `price_max = 0` is skipped by
the truthiness guard, so a row priced above the bound is returned. -/
theorem filter_products_price_zero_counterexample :
    ({ price_max := some 0 } : Criteria).price_max = some 0 ∧
    (⟨"A", "x", "y", 50, 4, "u", "d"⟩ : Row) ∈
      filter_products [⟨"A", "x", "y", 50, 4, "u", "d"⟩] { price_max := some 0 } ∧
    ¬ ((⟨"A", "x", "y", 50, 4, "u", "d"⟩ : Row).price ≤ 0) :=
  ⟨rfl, by decide, by decide⟩

/-- C2 (amended): for every catalog and criteria, a present and nonzero
`price_max` bounds every returned row's price from above, and a present and
nonzero `price_min` bounds it from below (a zero bound is treated as absent,
see the zero-bound no-op theorem). -/
theorem filter_products_price_bounds (df : List Row) (c : Criteria) (p : ℚ) :
    (c.price_max = some p → p ≠ 0 → ∀ r ∈ filter_products df c, r.price ≤ p) ∧
    (c.price_min = some p → p ≠ 0 → ∀ r ∈ filter_products df c, p ≤ r.price) := by
  constructor
  · intro hc hp r hr
    unfold filter_products at hr
    rw [mem_sortRows] at hr
    have h3 := mem_of_mem_stageNum (mem_of_mem_stageNum hr)
    rw [hc] at h3
    exact of_decide_eq_true (mem_stageNum_some hp h3)
  · intro hc hp r hr
    unfold filter_products at hr
    rw [mem_sortRows] at hr
    have h4 := mem_of_mem_stageNum hr
    rw [hc] at h4
    exact of_decide_eq_true (mem_stageNum_some hp h4)

/-- C2 (witness): a one-row catalog with `price_max = 100` at the row priced
50. -/
theorem filter_products_price_bounds_witness :
    (⟨"A", "x", "y", 50, 4, "u", "d"⟩ : Row).price ≤ 100 :=
  (filter_products_price_bounds [⟨"A", "x", "y", 50, 4, "u", "d"⟩]
      { price_max := some 100 } 100).1 rfl (by decide) _ (by decide)

/-- C3: on the empty criteria every narrowing step is skipped, so the result
is a permutation of the whole catalog (count preserved) ordered by rating
descending with ties broken by price ascending. -/
theorem filter_products_empty_criteria (df : List Row) :
    (filter_products df {}).Perm df ∧ (filter_products df {}).length = df.length ∧
      (filter_products df {}).Pairwise rankedBefore := by
  have h0 : filter_products df {} = sortRows df := by
    show sortRows (stageNum none _ (stageNum none _ (stageNum none _
      (stageStr none _ (stageStr none _ df))))) = sortRows df
    rw [stageStr_none, stageStr_none, stageNum_none, stageNum_none, stageNum_none]
  rw [h0]
  exact ⟨sortRows_perm df, (sortRows_perm df).length_eq, sortRows_pairwise df⟩

/-- C4: whenever `B` only adds constraints to `A`, every row of
`filter_products` under `A ∪ B` is also a row of `filter_products` under `A`:
each narrowing step under the union either repeats `A`'s step or narrows
further. -/
theorem filter_products_union_subset (df : List Row) (A B : Criteria)
    (h : A.AddsConstraintsTo B) :
    ∀ r, r ∈ filter_products df (A.union B) → r ∈ filter_products df A := by
  intro r hr
  obtain ⟨h1, h2, h3, h4, h5⟩ := h
  unfold filter_products at hr ⊢
  rw [mem_sortRows] at hr ⊢
  exact stageNum_mem_mono _ (mergeField_compat _ _ h5)
    (stageNum_mem_mono _ (mergeField_compat _ _ h4)
      (stageNum_mem_mono _ (mergeField_compat _ _ h3)
        (stageStr_mem_mono _ (mergeField_compat _ _ h2)
          (stageStr_mem_mono _ (mergeField_compat _ _ h1) (fun _ hh => hh))))) r hr

/-- C4 (witness): adding a `price_max` constraint to a category criteria on a
two-row catalog; the row surviving the union is recovered among the rows of
the weaker filter. -/
theorem filter_products_union_subset_witness :
    (⟨"Red Dress", "dress", "red", 150, 4, "u", "d"⟩ : Row) ∈
      filter_products
        [⟨"Red Dress", "dress", "red", 150, 4, "u", "d"⟩,
         ⟨"Blue Dress", "dress", "blue", 300, 5, "u2", "d2"⟩]
        { category := some "dress" } := by
  refine filter_products_union_subset _ { category := some "dress" }
    { price_max := some 200 } ⟨fun _ => rfl, ?_, ?_, ?_, ?_⟩ _ (by decide) <;>
    intro hh <;> simp at hh

/-- C5: the fallback extractor on `"Show me red dresses under $200"` yields
exactly color red, category dress and `price_max` 200, and no other fields. -/
theorem fallback_parse_red_dress_query :
    _fallback_parse "Show me red dresses under $200" =
      { color := some "red", category := some "dress", price_max := some 200 } := by
  decide

/-- C6: on an empty result `generate_recommendation_explanation` returns the
fixed no-products message whatever the criteria are. -/
theorem explanation_empty_result (c : Criteria) :
    generate_recommendation_explanation [] c =
      "No products found matching your criteria. Try adjusting your search terms." := rfl

/-- C7: the final sort is stable for exact (rating, price) ties — the rows of
the result carrying any fixed rating and price form, in result order, a
subsequence of the original catalog, hence appear in catalog order. -/
theorem filter_products_stable_ties (df : List Row) (c : Criteria) (q p : ℚ) :
    List.Sublist
      ((filter_products df c).filter (fun r => decide (r.rating = q) && decide (r.price = p)))
      df := by
  unfold filter_products
  rw [sortRows_filter_key]
  · refine (List.filter_sublist _).trans ?_
    exact ((stageNum_sublist _ _ _).trans ((stageNum_sublist _ _ _).trans
      ((stageNum_sublist _ _ _).trans ((stageStr_sublist _ _ _).trans
        (stageStr_sublist _ _ _)))))
  · intro a b hpa hpb hab
    rcases Bool.and_eq_true _ _ |>.mp hpa with ⟨ha1, ha2⟩
    rcases Bool.and_eq_true _ _ |>.mp hpb with ⟨hb1, hb2⟩
    have ea1 : a.2.rating = q := of_decide_eq_true ha1
    have ea2 : a.2.price = p := of_decide_eq_true ha2
    have eb1 : b.2.rating = q := of_decide_eq_true hb1
    have eb2 : b.2.price = p := of_decide_eq_true hb2
    rcases hab with h | ⟨_, h2⟩
    · exact absurd h (by rw [ea1, eb1]; exact lt_irrefl q)
    · rcases h2 with h2 | ⟨_, h3⟩
      · exact absurd h2 (by rw [ea2, eb2]; exact lt_irrefl p)
      · exact h3

/-- C8: the `filter_products` method never mutates the held catalog: the
receiver state after the call is the receiver state before it. -/
theorem run_filter_products_preserves_df (pf : ProductFilter) (c : Criteria) :
    ((pf.run_filter_products c).2).df = pf.df := rfl

/-- C9: a zero-valued `price_max`, `price_min` or `rating_min` is falsy under
the truthiness guard, so it filters nothing: the result equals the
empty-criteria result. -/
theorem filter_products_zero_bound_noop (df : List Row) :
    filter_products df { price_max := some 0 } = filter_products df {} ∧
    filter_products df { price_min := some 0 } = filter_products df {} ∧
    filter_products df { rating_min := some 0 } = filter_products df {} := by
  have hz : optNumActive (some 0) = false := by simp [optNumActive]
  have hzero : ∀ pred l, stageNum (some 0) pred l = l := by
    intro pred l; unfold stageNum; rw [hz]; simp
  refine ⟨?_, ?_, ?_⟩ <;>
    simp only [filter_products, stageStr_none, stageNum_none, hzero]

/-- C10: fallback color detection is raw substring matching, so the query
`"I am bored"` picks up the color red from inside the word "bored". -/
theorem fallback_parse_bored_color :
    (_fallback_parse "I am bored").color = some "red" := by decide

end Saleseer
